import Mathlib

/-!
Verification development for the PDF-OCR batch pipeline (`ocr_app.py`).

The program converts a ZIP of PDFs into per-page text transcripts through an
external OCR service, packages the result directory into a downloadable ZIP,
and defers destructive cleanup to the render pass after the download action.

This file gives a shallow embedding of the program's data model and
operations, then settles the frozen claims about it.  Filesystem paths are
modelled as lists of components; machine strings as Lean `String`; the
rasterizer and the remote OCR model as explicit function parameters (they
are black-box external capabilities in the program).
-/

/-- A filesystem path, as a list of components (`os.path.join` appends a
component). -/
abbrev FilePath' := List String

/-- A page image (an opaque byte payload; the rasterizer and JPEG encoder
are black boxes). -/
abbrev PageImage := List Nat

/-- Model of the `usage_metadata` object on a Gemini response: its
`total_token_count` attribute may be absent. -/
structure UsageMetadata where
  total_token_count : Option Nat
deriving DecidableEq

/-- Model of a Gemini `generate_content` response: the `text` attribute and
the `usage_metadata` attribute may each be absent (Python `getattr` with a
default is used on both in the source). -/
structure GeminiResponse where
  text : Option String
  usage_metadata : Option UsageMetadata
deriving DecidableEq

/-- The external collaborators of `ocr_with_gemini`: the JPEG+base64
encoding of a page image (lines 30–32 of the source) and the remote
`model.generate_content` call (lines 34–38), both black boxes. -/
structure OcrEnv where
  encode : PageImage → String
  generate_content : String → String → GeminiResponse

/-- `ocr_with_gemini(image, prompt)` (source lines 29–44): encode the image,
call the service, then read `text` via getattr with the sentinel
"⚠️ No OCR output" as the default, and the token count via
getattr on `usage_metadata` with default 0 (where a `None`
`usage_metadata` also yields the default 0). -/
def ocr_with_gemini (env : OcrEnv) (image : PageImage) (prompt : String) :
    String × Nat :=
  let response := env.generate_content (env.encode image) prompt
  let text := response.text.getD "⚠️ No OCR output"
  let token_count := (response.usage_metadata.map
    (fun u => u.total_token_count.getD 0)).getD 0
  (text, token_count)

/-- Decimal digit character, `'0'` + d. -/
def digitChar' (d : Nat) : Char := Char.ofNat (48 + d)

/-- Fuel-driven most-significant-first decimal rendering (the fuel is only a
termination device; `fuel = n + 1` always suffices). -/
def natDecAux : Nat → Nat → List Char
  | 0, _ => []
  | fuel + 1, n =>
    if n < 10 then [digitChar' n]
    else natDecAux fuel (n / 10) ++ [digitChar' (n % 10)]

/-- Decimal rendering of a natural number, modelling Python `str(n)` /
f-string interpolation of an integer. -/
def natDec (n : Nat) : String := ⟨natDecAux (n + 1) n⟩

/-- Left-fold decimal parser, used only to prove `natDec` injective. -/
def decVal (cs : List Char) : Nat :=
  cs.foldl (fun a c => 10 * a + (c.toNat - 48)) 0

/-- `os.path.basename` of a component path: its last component. -/
def basename (p : FilePath') : String := (p.getLast?).getD ""

/-- The stem part of `os.path.splitext(name)`: cut at the last dot that has
some non-dot character before it (so `".pdf"` has no extension, `"a.b.pdf"`
has stem `"a.b"`). -/
def splitext_stem (s : String) : String :=
  let cs := s.data
  let cutIdxs := (List.range cs.length).filter (fun i =>
    (cs.getD i ' ' == '.') && ((List.range i).any (fun j => !(cs.getD j ' ' == '.'))))
  match cutIdxs.getLast? with
  | some k => ⟨cs.take k⟩
  | none => s

/-- `chapter_name = os.path.splitext(os.path.basename(pdf_file))[0]`
(source line 64). -/
def chapter_name (p : FilePath') : String := splitext_stem (basename p)

/-- `txt_name = f"{chapter_name}_page_{i+1}.txt"` (source line 75), with the
0-based loop index `i`. -/
def txt_name (chapter : String) (i : Nat) : String :=
  chapter ++ "_page_" ++ natDec (i + 1) ++ ".txt"

/-- The state accumulated by `process_pdfs` (source lines 55–84), together
with its observable side effects: the status messages posted, the files
written (in order, each an `open(..., "w")` truncating write), the
directories created and the progress fractions reported. -/
structure ProcState where
  total_tokens_used : Nat
  structure_output : List String
  writes : List (FilePath' × String)
  progress : List ℚ
  status : List String
  mkdirs : List FilePath'

/-- The state at entry of `process_pdfs`: nothing accumulated yet. -/
def initProcState : ProcState :=
  { total_tokens_used := 0, structure_output := [], writes := [],
    progress := [], status := [], mkdirs := [] }

/-- The inner page loop of `process_pdfs` (source lines 70–79): for each
page, post a status message, OCR the page, add the returned token count,
write the transcript with a truncating write, and append the file line to
the structure listing.  `i` is the 0-based index of the head image and
`total` is `len(images)`. -/
def page_loop (env : OcrEnv) (prompt chapter : String) (chapter_out : FilePath')
    (total : Nat) : Nat → List PageImage → ProcState → ProcState
  | _, [], st => st
  | i, img :: rest, st =>
    let status_msg :=
      "🔍 Processing: " ++ chapter ++ " (Page " ++ natDec (i + 1) ++ "/" ++
        natDec total ++ ")"
    let r := ocr_with_gemini env img prompt
    let nm := txt_name chapter i
    let st' : ProcState :=
      { st with
        status := st.status ++ [status_msg]
        total_tokens_used := st.total_tokens_used + r.2
        writes := st.writes ++ [(chapter_out ++ [nm], r.1)]
        structure_output := st.structure_output ++ ["   └─ 📄 " ++ nm] }
    page_loop env prompt chapter chapter_out total (i + 1) rest st'

/-- The outer document loop of `process_pdfs` (source lines 63–81): for each
PDF, compute the chapter name, create its output subdirectory, append the
folder line, rasterize fully into a list, run the page loop, then report the
progress fraction `(idx + 1) / len(pdfs)`.  `n` is `len(pdfs)` and `idx` the
0-based index of the head document. -/
def pdf_loop (env : OcrEnv) (rasterize : FilePath' → List PageImage)
    (prompt : String) (output_dir : FilePath') (n : Nat) :
    Nat → List FilePath' → ProcState → ProcState
  | _, [], st => st
  | idx, pdf_file :: rest, st =>
    let chapter := chapter_name pdf_file
    let chapter_out := output_dir ++ [chapter]
    let images := rasterize pdf_file
    let st1 : ProcState :=
      { st with
        mkdirs := st.mkdirs ++ [chapter_out]
        structure_output := st.structure_output ++ ["📂 " ++ chapter ++ "/"] }
    let st2 := page_loop env prompt chapter chapter_out images.length 0 images st1
    let st3 : ProcState :=
      { st2 with progress := st2.progress ++ [((idx + 1 : ℚ)) / (n : ℚ)] }
    pdf_loop env rasterize prompt output_dir n (idx + 1) rest st3

/-- `process_pdfs(input_dir, output_dir, ...)` (source lines 55–84), applied
to the list of PDFs discovered under `input_dir`: runs the document loop and
returns the accumulated state together with the returned display string
`"\n".join(structure_output)`. -/
def process_pdfs (env : OcrEnv) (rasterize : FilePath' → List PageImage)
    (prompt : String) (output_dir : FilePath') (pdfs : List FilePath') :
    ProcState × String :=
  let st := pdf_loop env rasterize prompt output_dir pdfs.length 0 pdfs initProcState
  (st, String.intercalate "\n" st.structure_output)

/-- A truncating file write (`open(path, "w")` then `write`): the file at
`p` now holds exactly `c`; other paths are untouched. -/
def writeFile (fs : FilePath' → Option String) (p : FilePath') (c : String) :
    FilePath' → Option String :=
  fun q => if q = p then some c else fs q

/-- Apply a sequence of truncating writes in order (later writes overwrite
earlier ones at the same path). -/
def applyWrites (fs : FilePath' → Option String)
    (ws : List (FilePath' × String)) : FilePath' → Option String :=
  ws.foldl (fun acc w => writeFile acc w.1 w.2) fs

/-- The totally empty filesystem (a fresh directory). -/
def emptyFS : FilePath' → Option String := fun _ => none

/-! ### Reference ("specification-shaped") forms of the loop accumulators,
proved equal to the loop below.  These are derived views, not separate
models: every claim theorem goes through `process_pdfs` itself. -/

/-- The transcript writes the page loop performs, starting at page index
`i`. -/
def pageWritesFrom (env : OcrEnv) (prompt chapter : String)
    (chapter_out : FilePath') : Nat → List PageImage → List (FilePath' × String)
  | _, [] => []
  | i, img :: rest =>
    (chapter_out ++ [txt_name chapter i], (ocr_with_gemini env img prompt).1) ::
      pageWritesFrom env prompt chapter chapter_out (i + 1) rest

/-- The structure lines the page loop appends, starting at page index `i`. -/
def pageLinesFrom (chapter : String) : Nat → List PageImage → List String
  | _, [] => []
  | i, _ :: rest =>
    ("   └─ 📄 " ++ txt_name chapter i) :: pageLinesFrom chapter (i + 1) rest

/-- The status messages the page loop posts, starting at page index `i`. -/
def pageStatusFrom (chapter : String) (total : Nat) : Nat → List PageImage → List String
  | _, [] => []
  | i, _ :: rest =>
    ("🔍 Processing: " ++ chapter ++ " (Page " ++ natDec (i + 1) ++ "/" ++
      natDec total ++ ")") :: pageStatusFrom chapter total (i + 1) rest

/-- The tokens the page loop accumulates. -/
def pageTokens (env : OcrEnv) (prompt : String) (images : List PageImage) : Nat :=
  (images.map (fun img => (ocr_with_gemini env img prompt).2)).sum

/-- All writes one document contributes. -/
def docWrites (env : OcrEnv) (rasterize : FilePath' → List PageImage)
    (prompt : String) (output_dir : FilePath') (pdf : FilePath') :
    List (FilePath' × String) :=
  pageWritesFrom env prompt (chapter_name pdf)
    (output_dir ++ [chapter_name pdf]) 0 (rasterize pdf)

/-- All structure lines one document contributes: its folder line followed
by one file line per page. -/
def docLines (rasterize : FilePath' → List PageImage) (pdf : FilePath') :
    List String :=
  ("📂 " ++ chapter_name pdf ++ "/") ::
    pageLinesFrom (chapter_name pdf) 0 (rasterize pdf)

/-- The progress fractions reported for `count` documents starting at
document index `idx`, out of `n` documents in total. -/
def progressFrom (n : Nat) : Nat → Nat → List ℚ
  | _, 0 => []
  | idx, count + 1 => ((idx + 1 : ℚ)) / (n : ℚ) :: progressFrom n (idx + 1) count

/-! ### Model of the directory tree walked by `zip_folder` (source lines
86–95) and of ZIP extraction (`zip_ref.extractall`, source line 117). -/

mutual
/-- A node of a directory tree: a regular file with contents, or a
directory with children. -/
inductive FSTree : Type where
  | file : String → String → FSTree
  | dir : String → FSForest → FSTree
deriving DecidableEq
/-- A list of sibling nodes (the children of one directory). -/
inductive FSForest : Type where
  | nil : FSForest
  | cons : FSTree → FSForest → FSForest
deriving DecidableEq
end

/-- The entry name of a node. -/
def FSTree.name : FSTree → String
  | .file n _ => n
  | .dir n _ => n

/-- The names of the nodes of a forest (the directory listing). -/
def forestNames : FSForest → List String
  | .nil => []
  | .cons t f => t.name :: forestNames f

mutual
/-- A real directory never holds two entries with the same name; a
well-formed tree satisfies this at every level. -/
def wfTree : FSTree → Bool
  | .file _ _ => true
  | .dir _ f => wfForest f
/-- Well-formedness of a forest: sibling names pairwise distinct,
recursively. -/
def wfForest : FSForest → Bool
  | .nil => true
  | .cons t f => !(forestNames f).contains t.name && wfTree t && wfForest f
end

mutual
/-- The `(path, contents)` pairs `zip_folder`'s `os.walk` loop feeds to
`zipf.write` for the subtree `t`, with `pre` the absolute path of the
directory holding `t`: only regular files are visited, at
`os.path.join(root, file)`. -/
def walkTree (pre : FilePath') : FSTree → List (FilePath' × String)
  | .file n c => [(pre ++ [n], c)]
  | .dir n f => walkForest (pre ++ [n]) f
/-- `walkTree` over each sibling in order. -/
def walkForest (pre : FilePath') : FSForest → List (FilePath' × String)
  | .nil => []
  | .cons t f => walkTree pre t ++ walkForest pre f
end

/-- `os.path.relpath(abs_path, folder_path)` for a path lying under
`folder_path`: drop the leading components. -/
def relpath (base p : FilePath') : FilePath' := p.drop base.length

/-- `zip_folder(folder_path)` (source lines 86–95): walk the folder
(`folder_abs` is its absolute path, `f` its contents) and record each
regular file under its path relative to the folder.  The result models the
archive's entry list. -/
def zip_folder (folder_abs : FilePath') (f : FSForest) :
    List (FilePath' × String) :=
  (walkForest folder_abs f).map (fun e => (relpath folder_abs e.1, e.2))

/-- `zip_ref.extractall(target_dir)` (source line 117) for an in-memory
archive: write every entry, in order, at `target_dir/entry_path`. -/
def extractall (fs : FilePath' → Option String) (target_dir : FilePath')
    (entries : List (FilePath' × String)) : FilePath' → Option String :=
  applyWrites fs (entries.map (fun e => (target_dir ++ e.1, e.2)))

mutual
/-- Resolve a relative path against one node: the first component must be
the node's name; a longer path descends into a directory's children. -/
def lookupInTree (t : FSTree) (p : FilePath') : Option FSTree :=
  match p, t with
  | [], _ => none
  | [n], t => if t.name = n then some t else none
  | n :: rest, .dir m g => if m = n then lookupPath g rest else none
  | _ :: _, .file _ _ => none
/-- Resolve a relative path inside a forest to the node it denotes, if any
(unique under `wfForest`). -/
def lookupPath (f : FSForest) (p : FilePath') : Option FSTree :=
  match f with
  | .nil => none
  | .cons t f' =>
    match lookupInTree t p with
    | some r => some r
    | none => lookupPath f' p
end

/-! ### Model of the upload handler (source lines 101–117) and the Start
OCR result-directory setup (source lines 122–124). -/

/-- What one of the Job's three derived paths currently holds on disk. -/
inductive PathState where
  | absent : PathState
  | file : List Nat → PathState
  | dir : List (FilePath' × String) → PathState
deriving DecidableEq

/-- Source lines 107–109: `if os.path.exists(path):
shutil.rmtree(path, ignore_errors=True)`.  A directory is removed; on a
regular file `rmtree` raises `NotADirectoryError`, which `ignore_errors=True`
suppresses, so the file survives; an absent path is skipped by the `exists`
check. -/
def rmtree_if_exists : PathState → PathState
  | .dir _ => .absent
  | .file c => .file c
  | .absent => .absent

/-- `os.makedirs(path, exist_ok=True)` (source line 111): creates the
directory or accepts an existing one; raises `FileExistsError` (modelled as
`none`) if the path exists and is a regular file. -/
def makedirs_exist_ok : PathState → Option PathState
  | .absent => some (.dir [])
  | .dir es => some (.dir es)
  | .file _ => none

/-- `os.makedirs(path)` without `exist_ok` (source line 124): raises if the
path exists in any form. -/
def makedirs_strict : PathState → Option PathState
  | .absent => some (.dir [])
  | _ => none

/-- `open(path, "wb").write(buf)` (source lines 114–115): a truncating
create-or-overwrite of the staged archive file. -/
def write_bytes (_ : PathState) (b : List Nat) : PathState := .file b

/-- Overwrite-or-add one entry among a directory's files. -/
def dirWrite (es : List (FilePath' × String)) (e : FilePath' × String) :
    List (FilePath' × String) :=
  es.filter (fun x => x.1 ≠ e.1) ++ [e]

/-- `zip_ref.extractall(extract_dir)` writing into the directory state:
fails (`none`) unless the target is a directory. -/
def extract_into_dir (st : PathState) (entries : List (FilePath' × String)) :
    Option PathState :=
  match st with
  | .dir es => some (.dir (entries.foldl dirWrite es))
  | _ => none

/-- The three filesystem paths the Job derives from `upload_name`:
`output/<name>` (extract dir), `output/<name>.zip` (staged archive) and
`output/<name>_ocr` (result dir). -/
structure AppFS where
  extract : PathState
  zipPath : PathState
  result : PathState
deriving DecidableEq

/-- The upload handler (source lines 101–117): clear `extract_dir` and
`zip_path` with `rmtree(..., ignore_errors=True)`, recreate `extract_dir`,
persist the uploaded bytes to `zip_path` with a truncating write, then
extract the uploaded archive into `extract_dir`.  `entries_of` models
`zipfile.ZipFile(...).extractall`'s reading of the archive bytes. -/
def upload_handler (fs : AppFS) (uploaded_bytes : List Nat)
    (entries_of : List Nat → List (FilePath' × String)) : Option AppFS :=
  let fs1 : AppFS :=
    { fs with extract := rmtree_if_exists fs.extract,
              zipPath := rmtree_if_exists fs.zipPath }
  match makedirs_exist_ok fs1.extract with
  | none => none
  | some ex =>
    let fs2 : AppFS := { fs1 with extract := ex,
                                  zipPath := write_bytes fs1.zipPath uploaded_bytes }
    match extract_into_dir fs2.extract (entries_of uploaded_bytes) with
    | none => none
    | some ex2 => some { fs2 with extract := ex2 }

/-- The Start-OCR result-directory setup (source lines 122–124):
`shutil.rmtree(result_path, ignore_errors=True)` then
`os.makedirs(result_path)`. -/
def start_ocr_setup (fs : AppFS) : Option AppFS :=
  (makedirs_strict (rmtree_if_exists fs.result)).map
    (fun r => { fs with result := r })

/-! ### Model of one render pass of the script (the Streamlit run), for the
cleanup lifecycle (source lines 100–155). -/

/-- The `st.session_state` contents the script uses: the `cleanup_trigger`
flag, the only state that survives a re-render. -/
structure SessionState where
  cleanup_trigger : Bool
deriving DecidableEq

/-- The widget values of one script run.  A Streamlit button
(`st.button` / `st.download_button`) returns `True` only in the single run
caused by its click; on the forced re-render after `st.rerun()` no widget
was clicked, so both buttons read `False` there. -/
structure RenderInput where
  uploadedZip : Bool
  startClicked : Bool
  downloadClicked : Bool
deriving DecidableEq

/-- The side effects a run can perform, in program order. -/
inductive RenderEffect where
  /-- lines 107–109: clear `extract_dir` / `zip_path` -/
  | uploadClear : RenderEffect
  /-- lines 111–115: recreate `extract_dir`, save the staged archive -/
  | uploadSave : RenderEffect
  /-- lines 116–117: extract the uploaded archive -/
  | uploadExtract : RenderEffect
  /-- lines 122–124: reset the result directory -/
  | resultReset : RenderEffect
  /-- lines 129–134: OCR processing and re-archiving -/
  | processAndZip : RenderEffect
  /-- lines 145–150: the cleanup block body — delete the result dir, the
  extract dir and the staged archive, and the output root if now empty -/
  | cleanupDeletions : RenderEffect
deriving DecidableEq

/-- The outcome of one script run. -/
structure RenderResult where
  state : SessionState
  effects : List RenderEffect
  rerunRequested : Bool
deriving DecidableEq

/-- One top-to-bottom run of the script body (source lines 100–155).  The
upload block runs whenever an upload is present; the Start-OCR block — and,
nested inside it, the download handler and the cleanup block — runs only
when `st.button("🔍 Start OCR")` returned `True` this run.  When the
download button fired, the script sets `cleanup_trigger` and calls
`st.rerun()`, which stops the run immediately, before the cleanup block
(lines 143–155) is reached. -/
def render_script (inp : RenderInput) (s : SessionState) : RenderResult :=
  if inp.uploadedZip then
    let effs0 := [RenderEffect.uploadClear, .uploadSave, .uploadExtract]
    if inp.startClicked then
      let effs1 := effs0 ++ [.resultReset, .processAndZip]
      if inp.downloadClicked then
        { state := { cleanup_trigger := true }, effects := effs1,
          rerunRequested := true }
      else if s.cleanup_trigger then
        { state := { cleanup_trigger := false },
          effects := effs1 ++ [.cleanupDeletions], rerunRequested := false }
      else
        { state := s, effects := effs1, rerunRequested := false }
    else
      { state := s, effects := effs0, rerunRequested := false }
  else
    { state := s, effects := [], rerunRequested := false }

/-! ### Model of startup credential handling (source lines 12–14). -/

/-- `os.getenv(key)`: the variable's value, or `None` when absent — it
never raises. -/
def os_getenv (env : List (String × String)) (key : String) : Option String :=
  (env.find? (fun kv => kv.1 = key)).map Prod.snd

/-- What module import either does or would do on a configuration error. -/
inductive StartupResult where
  /-- import completed; the UI renders; the (possibly absent) key was handed
  to the client library -/
  | started : Option String → StartupResult
  /-- an exception at import time: the app dies before rendering -/
  | fatalError : StartupResult
deriving DecidableEq

/-- Source line 14, `genai.configure(api_key=os.getenv("GEMINI_API_KEY"))`,
together with the `google-generativeai` client behavior: `configure` stores
the (possibly `None`) key and performs no eager validation — a missing key
surfaces only when the first `generate_content` request is made.  `os.getenv`
returns `None` rather than raising, and the source checks nothing, so the
module import always completes. -/
def app_startup (env : List (String × String)) : StartupResult :=
  .started (os_getenv env "GEMINI_API_KEY")

/-! ### Concrete inputs used by witnesses and counterexamples. -/

/-- An OCR environment whose service always answers with text and a token
count. -/
def envA : OcrEnv :=
  { encode := fun _ => ""
    generate_content := fun _ _ =>
      { text := some "hello", usage_metadata := some { total_token_count := some 2 } } }

/-- An OCR environment whose service answers with no text and no usage
value. -/
def envNone : OcrEnv :=
  { encode := fun _ => ""
    generate_content := fun _ _ => { text := none, usage_metadata := none } }

/-- A rasterizer giving every document exactly one page. -/
def rasterOne : FilePath' → List PageImage := fun _ => [[0]]

/-- Two documents at different paths with the same stem `"x"`. -/
def pdfsClash : List FilePath' := [["a", "x.pdf"], ["b", "x.pdf"]]

/-- Two documents with distinct stems. -/
def pdfsOk : List FilePath' := [["a", "x.pdf"], ["b", "y.pdf"]]

/-- A small well-formed result tree: a file beside a subdirectory holding a
second file. -/
def forestA : FSForest :=
  .cons (.file "a.txt" "alpha")
    (.cons (.dir "sub" (.cons (.file "b.txt" "beta") .nil)) .nil)

/-- A well-formed tree holding an empty subdirectory beside one file. -/
def forestEmptyDir : FSForest :=
  .cons (.dir "empty" .nil) (.cons (.file "a.txt" "alpha") .nil)

/-- A stale Job footprint: the extract dir and the result dir hold leftover
files and the staged archive holds the previous upload's bytes. -/
def staleAppFS : AppFS :=
  { extract := .dir [(["old.pdf"], "stale")]
    zipPath := .file [9, 9]
    result := .dir [(["x", "x_page_1.txt"], "stale")] }

/-- A parse of uploaded archive bytes used in witnesses: one PDF entry. -/
def entriesOfA : List Nat → List (FilePath' × String) :=
  fun _ => [(["new.pdf"], "fresh")]

/-! ## Basic lemmas: decimal rendering is injective. -/

theorem string_data_append (s t : String) : (s ++ t).data = s.data ++ t.data := rfl

theorem natDec_data (n : Nat) : (natDec n).data = natDecAux (n + 1) n := rfl

theorem digitChar'_toNat {d : Nat} (h : d < 10) : (digitChar' d).toNat = 48 + d := by
  interval_cases d <;> decide

theorem decVal_concat (xs : List Char) (c : Char) :
    decVal (xs ++ [c]) = 10 * decVal xs + (c.toNat - 48) := by
  simp [decVal, List.foldl_append]

theorem natDecAux_decVal : ∀ fuel n, n < 10 ^ fuel → decVal (natDecAux fuel n) = n := by
  intro fuel
  induction fuel with
  | zero =>
    intro n h
    have hn : n = 0 := by omega
    subst hn; rfl
  | succ fuel ih =>
    intro n h
    rw [natDecAux]
    by_cases h10 : n < 10
    · simp only [if_pos h10]
      have := digitChar'_toNat h10
      simp [decVal, this]
    · simp only [if_neg h10]
      have hdiv : n / 10 < 10 ^ fuel := by
        have : 10 ^ (fuel + 1) = 10 ^ fuel * 10 := pow_succ 10 fuel
        omega
      rw [decVal_concat, ih _ hdiv, digitChar'_toNat (Nat.mod_lt _ (by norm_num))]
      omega

theorem natDec_inj {m n : Nat} (h : natDec m = natDec n) : m = n := by
  have hd : natDecAux (m + 1) m = natDecAux (n + 1) n := congrArg String.data h
  have hm : decVal (natDecAux (m + 1) m) = m :=
    natDecAux_decVal _ _ (lt_of_lt_of_le (Nat.lt_pow_self (by norm_num) m)
      (Nat.pow_le_pow_right (by norm_num) (Nat.le_succ m)))
  have hn : decVal (natDecAux (n + 1) n) = n :=
    natDecAux_decVal _ _ (lt_of_lt_of_le (Nat.lt_pow_self (by norm_num) n)
      (Nat.pow_le_pow_right (by norm_num) (Nat.le_succ n)))
  rw [← hm, hd, hn]

theorem txt_name_inj (c : String) {i j : Nat} (h : txt_name c i = txt_name c j) :
    i = j := by
  have hd := congrArg String.data h
  simp only [txt_name, string_data_append] at hd
  have h1 := List.append_cancel_right hd
  have h2 := List.append_cancel_left h1
  have : natDec (i + 1) = natDec (j + 1) := by
    apply congrArg String.mk
    simpa [natDec_data] using h2
  have := natDec_inj this
  omega

/-! ## Characterization of the processing loops. -/

theorem page_loop_spec (env : OcrEnv) (prompt chapter : String)
    (chapter_out : FilePath') (total : Nat) :
    ∀ (images : List PageImage) (i : Nat) (st : ProcState),
      page_loop env prompt chapter chapter_out total i images st =
        { st with
          status := st.status ++ pageStatusFrom chapter total i images
          total_tokens_used := st.total_tokens_used + pageTokens env prompt images
          writes := st.writes ++ pageWritesFrom env prompt chapter chapter_out i images
          structure_output := st.structure_output ++ pageLinesFrom chapter i images } := by
  intro images
  induction images with
  | nil => intro i st; simp [page_loop, pageStatusFrom, pageTokens, pageWritesFrom, pageLinesFrom]
  | cons img rest ih =>
    intro i st
    rw [page_loop, ih]
    simp [pageStatusFrom, pageTokens, pageWritesFrom, pageLinesFrom, Nat.add_assoc]

theorem pdf_loop_spec (env : OcrEnv) (rasterize : FilePath' → List PageImage)
    (prompt : String) (output_dir : FilePath') (n : Nat) :
    ∀ (pdfs : List FilePath') (idx : Nat) (st : ProcState),
      pdf_loop env rasterize prompt output_dir n idx pdfs st =
        { st with
          mkdirs := st.mkdirs ++ pdfs.map (fun p => output_dir ++ [chapter_name p])
          structure_output := st.structure_output ++
            (pdfs.map (docLines rasterize)).flatten
          writes := st.writes ++
            (pdfs.map (docWrites env rasterize prompt output_dir)).flatten
          total_tokens_used := st.total_tokens_used +
            (pdfs.map (fun p => pageTokens env prompt (rasterize p))).sum
          progress := st.progress ++ progressFrom n idx pdfs.length
          status := st.status ++
            (pdfs.map (fun p =>
              pageStatusFrom (chapter_name p) (rasterize p).length 0 (rasterize p))).flatten } := by
  intro pdfs
  induction pdfs with
  | nil => intro idx st; simp [pdf_loop, progressFrom]
  | cons pdf rest ih =>
    intro idx st
    rw [pdf_loop, page_loop_spec, ih]
    simp [docLines, docWrites, progressFrom, Nat.add_assoc]

/-! ## Derived facts about `process_pdfs`. -/

theorem process_pdfs_state (env : OcrEnv) (rasterize : FilePath' → List PageImage)
    (prompt : String) (output_dir : FilePath') (pdfs : List FilePath') :
    (process_pdfs env rasterize prompt output_dir pdfs).1 =
      { total_tokens_used := (pdfs.map (fun p => pageTokens env prompt (rasterize p))).sum
        structure_output := (pdfs.map (docLines rasterize)).flatten
        writes := (pdfs.map (docWrites env rasterize prompt output_dir)).flatten
        progress := progressFrom pdfs.length 0 pdfs.length
        status := (pdfs.map (fun p =>
          pageStatusFrom (chapter_name p) (rasterize p).length 0 (rasterize p))).flatten
        mkdirs := pdfs.map (fun p => output_dir ++ [chapter_name p]) } := by
  simp [process_pdfs, pdf_loop_spec, initProcState]

theorem process_pdfs_report (env : OcrEnv) (rasterize : FilePath' → List PageImage)
    (prompt : String) (output_dir : FilePath') (pdfs : List FilePath') :
    (process_pdfs env rasterize prompt output_dir pdfs).2 =
      String.intercalate "\n"
        (process_pdfs env rasterize prompt output_dir pdfs).1.structure_output := rfl

theorem pageWritesFrom_length (env : OcrEnv) (prompt chapter : String)
    (chapter_out : FilePath') :
    ∀ (images : List PageImage) (i : Nat),
      (pageWritesFrom env prompt chapter chapter_out i images).length = images.length := by
  intro images
  induction images with
  | nil => intro i; rfl
  | cons img rest ih => intro i; simp [pageWritesFrom, ih]

theorem pageWritesFrom_paths (env : OcrEnv) (prompt chapter : String)
    (chapter_out : FilePath') :
    ∀ (images : List PageImage) (i : Nat),
      (pageWritesFrom env prompt chapter chapter_out i images).map Prod.fst =
        (List.range images.length).map (fun j => chapter_out ++ [txt_name chapter (i + j)]) := by
  intro images
  induction images with
  | nil => intro i; rfl
  | cons img rest ih =>
    intro i
    rw [List.length_cons, List.range_succ_eq_map]
    simp only [pageWritesFrom, List.map_cons, List.map_map, ih]
    refine congrArg₂ _ (by simp) ?_
    refine List.map_congr_left (fun j _ => ?_)
    have h : i + 1 + j = i + (j + 1) := by omega
    simp [Function.comp, h]

theorem pageLinesFrom_length (chapter : String) :
    ∀ (images : List PageImage) (i : Nat),
      (pageLinesFrom chapter i images).length = images.length := by
  intro images
  induction images with
  | nil => intro i; rfl
  | cons img rest ih => intro i; simp [pageLinesFrom, ih]

theorem docLines_length (rasterize : FilePath' → List PageImage) (pdf : FilePath') :
    (docLines rasterize pdf).length = 1 + (rasterize pdf).length := by
  simp [docLines, pageLinesFrom_length, Nat.add_comm]

theorem docWrites_length (env : OcrEnv) (rasterize : FilePath' → List PageImage)
    (prompt : String) (output_dir : FilePath') (pdf : FilePath') :
    (docWrites env rasterize prompt output_dir pdf).length = (rasterize pdf).length := by
  simp [docWrites, pageWritesFrom_length]

theorem sum_map_one_add {α : Type} (l : List α) (g : α → Nat) :
    (l.map (fun x => 1 + g x)).sum = l.length + (l.map g).sum := by
  induction l with
  | nil => rfl
  | cons a l ih => simp [ih]; omega

theorem progressFrom_length (n : Nat) :
    ∀ (count idx : Nat), (progressFrom n idx count).length = count := by
  intro count
  induction count with
  | zero => intro idx; rfl
  | succ c ih => intro idx; simp [progressFrom, ih]

theorem progressFrom_getLast (n : Nat) :
    ∀ (count idx : Nat), count ≠ 0 → idx + count = n →
      (progressFrom n idx count).getLast? = some 1 := by
  intro count
  induction count with
  | zero => intro idx h; exact absurd rfl h
  | succ c ih =>
    intro idx _ hsum
    rw [progressFrom]
    by_cases hc : c = 0
    · subst hc
      have hn : idx + 1 = n := by omega
      have hn0 : (n : ℚ) ≠ 0 := by
        have h1 : 0 < n := by omega
        exact_mod_cast Nat.pos_iff_ne_zero.mp h1
      simp only [progressFrom, List.getLast?_singleton, Option.some.injEq]
      rw [show ((idx : ℚ) + 1) = ((idx + 1 : Nat) : ℚ) by push_cast; ring, hn]
      exact div_self hn0
    · obtain ⟨hd, tl, heq⟩ : ∃ hd tl, progressFrom n (idx + 1) c = hd :: tl := by
        cases h : progressFrom n (idx + 1) c with
        | nil =>
          exfalso
          have hl := progressFrom_length n c (idx + 1)
          rw [h] at hl
          exact hc hl.symm
        | cons hd tl => exact ⟨hd, tl, rfl⟩
      rw [heq, List.getLast?_cons_cons, ← heq]
      exact ih (idx + 1) hc (by omega)

/-! ## Truncating-write semantics. -/

theorem applyWrites_append (fs : FilePath' → Option String)
    (ws1 ws2 : List (FilePath' × String)) :
    applyWrites fs (ws1 ++ ws2) = applyWrites (applyWrites fs ws1) ws2 := by
  simp [applyWrites, List.foldl_append]

theorem applyWrites_not_mem (p : FilePath') :
    ∀ (ws : List (FilePath' × String)) (fs : FilePath' → Option String),
      p ∉ ws.map Prod.fst → applyWrites fs ws p = fs p := by
  intro ws
  induction ws with
  | nil => intro fs _; rfl
  | cons w rest ih =>
    intro fs hp
    simp only [List.map_cons, List.mem_cons, not_or] at hp
    rw [applyWrites, List.foldl_cons, ← applyWrites, ih _ hp.2, writeFile,
      if_neg hp.1]

theorem applyWrites_last (fs : FilePath' → Option String)
    (ws1 ws2 : List (FilePath' × String)) (p : FilePath') (c : String)
    (h : p ∉ ws2.map Prod.fst) :
    applyWrites fs (ws1 ++ (p, c) :: ws2) p = some c := by
  rw [show ws1 ++ (p, c) :: ws2 = (ws1 ++ [(p, c)]) ++ ws2 by simp,
    applyWrites_append, applyWrites_not_mem p ws2 _ h, applyWrites_append]
  simp [applyWrites, writeFile]

/-! ## Distinctness of the transcript paths. -/

theorem pageWritesFrom_paths_nodup (env : OcrEnv) (prompt chapter : String)
    (chapter_out : FilePath') (images : List PageImage) (i : Nat) :
    ((pageWritesFrom env prompt chapter chapter_out i images).map Prod.fst).Nodup := by
  rw [pageWritesFrom_paths]
  refine List.Nodup.map ?_ (List.nodup_range _)
  intro a b hab
  have h1 := List.append_cancel_left hab
  have h2 : txt_name chapter (i + a) = txt_name chapter (i + b) := by
    simpa using h1
  have := txt_name_inj chapter h2
  omega

theorem docWrites_paths_disjoint (env : OcrEnv)
    (rasterize : FilePath' → List PageImage) (prompt : String)
    (output_dir : FilePath') (d1 d2 : FilePath')
    (hne : chapter_name d1 ≠ chapter_name d2) :
    List.Disjoint ((docWrites env rasterize prompt output_dir d1).map Prod.fst)
      ((docWrites env rasterize prompt output_dir d2).map Prod.fst) := by
  intro p hp1 hp2
  rw [docWrites, pageWritesFrom_paths] at hp1 hp2
  obtain ⟨a, _, ha⟩ := List.mem_map.mp hp1
  obtain ⟨b, _, hb⟩ := List.mem_map.mp hp2
  rw [← hb] at ha
  rw [List.append_assoc, List.append_assoc] at ha
  have h1 := List.append_cancel_left ha
  simp only [List.singleton_append] at h1
  exact hne (by injection h1)

theorem process_writes_paths_nodup (env : OcrEnv)
    (rasterize : FilePath' → List PageImage) (prompt : String)
    (output_dir : FilePath') (pdfs : List FilePath')
    (h : (pdfs.map chapter_name).Nodup) :
    (((pdfs.map (docWrites env rasterize prompt output_dir)).flatten).map Prod.fst).Nodup := by
  rw [List.map_flatten, List.map_map]
  rw [List.nodup_flatten]
  constructor
  · intro l hl
    obtain ⟨pdf, _, hpdf⟩ := List.mem_map.mp hl
    rw [← hpdf]
    exact pageWritesFrom_paths_nodup env prompt _ _ _ _
  · rw [List.pairwise_map]
    have hpw : pdfs.Pairwise (fun a b => chapter_name a ≠ chapter_name b) :=
      List.pairwise_map.mp h
    exact hpw.imp (fun hab =>
      docWrites_paths_disjoint env rasterize prompt output_dir _ _ hab)

theorem process_writes_length (env : OcrEnv)
    (rasterize : FilePath' → List PageImage) (prompt : String)
    (output_dir : FilePath') (pdfs : List FilePath') :
    ((pdfs.map (docWrites env rasterize prompt output_dir)).flatten).length =
      (pdfs.map (fun p => (rasterize p).length)).sum := by
  rw [List.length_flatten, List.map_map]
  congr 1
  exact List.map_congr_left (fun p _ => docWrites_length env rasterize prompt output_dir p)

theorem pageWritesFrom_mem (env : OcrEnv) (prompt chapter : String)
    (chapter_out : FilePath') :
    ∀ (images : List PageImage) (i k : Nat), k < images.length →
      (chapter_out ++ [txt_name chapter (i + k)],
        (ocr_with_gemini env (images.getD k []) prompt).1) ∈
        pageWritesFrom env prompt chapter chapter_out i images := by
  intro images
  induction images with
  | nil => intro i k hk; simp at hk
  | cons img rest ih =>
    intro i k hk
    match k with
    | 0 => simp [pageWritesFrom]
    | k + 1 =>
      rw [pageWritesFrom]
      refine List.mem_cons_of_mem _ ?_
      have := ih (i + 1) k (by simpa using hk)
      simpa [Nat.add_assoc, Nat.add_comm 1 k] using this

/-! ## Locating one page's write inside the write sequence. -/

theorem pageWritesFrom_path_not_mem_of_lt (env : OcrEnv) (prompt chapter : String)
    (chapter_out : FilePath') (images : List PageImage) (i0 m : Nat) (hm : m < i0) :
    (chapter_out ++ [txt_name chapter m]) ∉
      (pageWritesFrom env prompt chapter chapter_out i0 images).map Prod.fst := by
  rw [pageWritesFrom_paths]
  intro hmem
  obtain ⟨j, _, hj⟩ := List.mem_map.mp hmem
  have h1 := List.append_cancel_left hj
  have h2 : txt_name chapter (i0 + j) = txt_name chapter m := by simpa using h1
  have := txt_name_inj chapter h2
  omega

theorem pageWritesFrom_decomp (env : OcrEnv) (prompt chapter : String)
    (chapter_out : FilePath') :
    ∀ (images : List PageImage) (i0 k : Nat), k < images.length →
      ∃ A, pageWritesFrom env prompt chapter chapter_out i0 images =
        A ++ (chapter_out ++ [txt_name chapter (i0 + k)],
              (ocr_with_gemini env (images.getD k []) prompt).1) ::
            pageWritesFrom env prompt chapter chapter_out (i0 + k + 1)
              (images.drop (k + 1)) := by
  intro images
  induction images with
  | nil => intro i0 k hk; simp at hk
  | cons img rest ih =>
    intro i0 k hk
    match k with
    | 0 => exact ⟨[], by simp [pageWritesFrom]⟩
    | k + 1 =>
      obtain ⟨A, hA⟩ := ih (i0 + 1) k (by simpa using hk)
      refine ⟨(chapter_out ++ [txt_name chapter i0],
        (ocr_with_gemini env img prompt).1) :: A, ?_⟩
      rw [pageWritesFrom, hA]
      simp [Nat.add_assoc, Nat.add_comm 1 k]

theorem process_last_doc_write (env : OcrEnv)
    (rasterize : FilePath' → List PageImage) (prompt : String)
    (output_dir : FilePath') (pdfs0 : List FilePath') (d2 : FilePath') (i : Nat)
    (h2 : i < (rasterize d2).length) (fs0 : FilePath' → Option String) :
    applyWrites fs0
      ((process_pdfs env rasterize prompt output_dir (pdfs0 ++ [d2])).1.writes)
      (output_dir ++ [chapter_name d2, txt_name (chapter_name d2) i]) =
      some ((ocr_with_gemini env ((rasterize d2).getD i []) prompt).1) := by
  rw [process_pdfs_state]
  simp only [List.map_append, List.map_cons, List.map_nil, List.flatten_append,
    List.flatten_cons, List.flatten_nil, List.append_nil]
  obtain ⟨A, hA⟩ := pageWritesFrom_decomp env prompt (chapter_name d2)
    (output_dir ++ [chapter_name d2]) (rasterize d2) 0 i h2
  rw [docWrites, hA, ← List.append_assoc]
  have hp : output_dir ++ [chapter_name d2, txt_name (chapter_name d2) i] =
      (output_dir ++ [chapter_name d2]) ++ [txt_name (chapter_name d2) i] := by
    simp
  rw [hp]
  rw [show (0 : Nat) + i = i by omega]
  refine applyWrites_last _ _ _ _ _ ?_
  have := pageWritesFrom_path_not_mem_of_lt env prompt (chapter_name d2)
    (output_dir ++ [chapter_name d2]) ((rasterize d2).drop (i + 1)) (i + 1) i
    (by omega)
  simpa using this

/-! ## The walk of `zip_folder` and path lookup in the source tree. -/

mutual
theorem walkTree_shift : ∀ (pre : FilePath') (t : FSTree),
    walkTree pre t = (walkTree [] t).map (fun e => (pre ++ e.1, e.2))
  | pre, .file n c => by simp [walkTree]
  | pre, .dir n f => by
    rw [walkTree, walkForest_shift (pre ++ [n]) f]
    rw [show walkTree [] (.dir n f) = walkForest [n] f by rw [walkTree]; simp,
      walkForest_shift [n] f]
    simp [List.map_map, Function.comp]
theorem walkForest_shift : ∀ (pre : FilePath') (f : FSForest),
    walkForest pre f = (walkForest [] f).map (fun e => (pre ++ e.1, e.2))
  | pre, .nil => rfl
  | pre, .cons t f' => by
    rw [walkForest, walkTree_shift pre t, walkForest_shift pre f']
    rw [show walkForest [] (.cons t f') = walkTree [] t ++ walkForest [] f' from rfl]
    simp
end

theorem mem_walkTree_head (t : FSTree) (p : FilePath') (c : String)
    (h : (p, c) ∈ walkTree [] t) : ∃ q, p = t.name :: q := by
  match t with
  | .file n s => simp [walkTree] at h; exact ⟨[], by simp [h.1, FSTree.name]⟩
  | .dir n f =>
    rw [show walkTree [] (.dir n f) = walkForest [n] f by rw [walkTree]; simp,
      walkForest_shift [n] f] at h
    obtain ⟨e, _, he⟩ := List.mem_map.mp h
    refine ⟨e.1, ?_⟩
    have hp : [n] ++ e.1 = p := by
      have := congrArg Prod.fst he
      simpa using this
    simp [← hp, FSTree.name]

theorem mem_walkForest_head : ∀ (f : FSForest) (p : FilePath') (c : String),
    (p, c) ∈ walkForest [] f → ∃ n q, p = n :: q ∧ n ∈ forestNames f
  | .nil, p, c, h => by simp [walkForest] at h
  | .cons t f', p, c, h => by
    rw [walkForest] at h
    rcases List.mem_append.mp h with h1 | h2
    · obtain ⟨q, hq⟩ := mem_walkTree_head t p c h1
      exact ⟨t.name, q, hq, by simp [forestNames]⟩
    · obtain ⟨n, q, hnq, hn⟩ := mem_walkForest_head f' p c h2
      exact ⟨n, q, hnq, by simp [forestNames, hn]⟩

theorem lookupPath_nil : ∀ (f : FSForest), lookupPath f [] = none
  | .nil => rfl
  | .cons t f' => by
    rw [lookupPath, show lookupInTree t [] = none by simp [lookupInTree],
      lookupPath_nil f']

theorem lookupInTree_head_ne (t : FSTree) (n : String) (rest : FilePath')
    (h : t.name ≠ n) : lookupInTree t (n :: rest) = none := by
  match rest, t with
  | [], .file m s => simp [lookupInTree, FSTree.name] at h ⊢; exact fun hc => absurd hc h
  | [], .dir m g => simp [lookupInTree, FSTree.name] at h ⊢; exact fun hc => absurd hc h
  | r :: rs, .file m s => rfl
  | r :: rs, .dir m g =>
    simp only [lookupInTree]
    rw [if_neg (by simpa [FSTree.name] using h)]

theorem lookupInTree_some_head (t : FSTree) (p : FilePath') (r : FSTree)
    (h : lookupInTree t p = some r) : ∃ q, p = t.name :: q := by
  match p with
  | [] => exact absurd h (by simp [lookupInTree])
  | n :: rest =>
    by_cases hn : t.name = n
    · exact ⟨rest, by rw [hn]⟩
    · rw [lookupInTree_head_ne t n rest hn] at h; exact absurd h (by simp)

theorem lookupPath_head_mem : ∀ (f : FSForest) (p : FilePath') (r : FSTree),
    lookupPath f p = some r → ∃ n q, p = n :: q ∧ n ∈ forestNames f
  | .nil, p, r, h => by simp [lookupPath] at h
  | .cons t f', p, r, h => by
    rw [lookupPath] at h
    cases hlt : lookupInTree t p with
    | some r' =>
      obtain ⟨q, hq⟩ := lookupInTree_some_head t p r' hlt
      exact ⟨t.name, q, hq, by simp [forestNames]⟩
    | none =>
      rw [hlt] at h
      obtain ⟨n, q, hnq, hn⟩ := lookupPath_head_mem f' p r h
      exact ⟨n, q, hnq, by simp [forestNames, hn]⟩

theorem wfForest_cons_iff (t : FSTree) (f' : FSForest) :
    wfForest (.cons t f') = true ↔
      t.name ∉ forestNames f' ∧ wfTree t = true ∧ wfForest f' = true := by
  simp [wfForest, List.contains, and_assoc]

theorem lookupPath_cons_some (t : FSTree) (f' : FSForest) (p : FilePath')
    (r : FSTree) (h : lookupInTree t p = some r) :
    lookupPath (.cons t f') p = some r := by
  rw [lookupPath, h]

theorem lookupPath_cons_none (t : FSTree) (f' : FSForest) (p : FilePath')
    (h : lookupInTree t p = none) :
    lookupPath (.cons t f') p = lookupPath f' p := by
  rw [lookupPath, h]

mutual
theorem mem_walkTree_iff_lookupInTree : ∀ (t : FSTree), wfTree t = true →
    ∀ (p : FilePath') (c : String),
      ((p, c) ∈ walkTree [] t ↔ ∃ n, lookupInTree t p = some (.file n c))
  | .file m s, _, p, c => by
    constructor
    · intro hm
      simp only [walkTree, List.mem_singleton, Prod.mk.injEq] at hm
      refine ⟨m, ?_⟩
      rw [hm.1, hm.2]
      simp [lookupInTree, FSTree.name]
    · rintro ⟨n, hn⟩
      cases p with
      | nil => simp [lookupInTree] at hn
      | cons k krest =>
        cases krest with
        | nil =>
          simp only [lookupInTree] at hn
          by_cases hk : FSTree.name (.file m s) = k
          · rw [if_pos hk] at hn
            have h2 := Option.some.inj hn
            injection h2 with hmn hsc
            simp only [FSTree.name] at hk
            simp [walkTree, hk.symm, hsc]
          · rw [if_neg hk] at hn; exact absurd hn (by simp)
        | cons k2 rest => simp [lookupInTree] at hn
  | .dir m g, h, p, c => by
    have hg : wfForest g = true := by simpa [wfTree] using h
    have hwalk : walkTree [] (.dir m g) =
        (walkForest [] g).map (fun e => (m :: e.1, e.2)) := by
      rw [walkTree]
      simp only [List.nil_append]
      rw [walkForest_shift [m] g]
      simp
    rw [hwalk]
    cases p with
    | nil =>
      simp only [lookupInTree]
      constructor
      · intro hm
        obtain ⟨e, _, hee⟩ := List.mem_map.mp hm
        exact absurd (congrArg Prod.fst hee) (by simp)
      · rintro ⟨n, hn⟩; exact absurd hn (by simp)
    | cons k krest =>
      cases krest with
      | nil =>
        constructor
        · intro hm
          obtain ⟨⟨p1, c1⟩, he1, hee⟩ := List.mem_map.mp hm
          injection hee with hp1 hc1
          injection hp1 with hmk hp1n
          subst hp1n
          have := (mem_walkForest_iff_lookupPath g hg [] c).mp
            (by rw [show c = c1 from hc1.symm]; exact he1)
          obtain ⟨n, hn⟩ := this
          rw [lookupPath_nil] at hn
          exact absurd hn (by simp)
        · rintro ⟨n, hn⟩
          simp only [lookupInTree] at hn
          by_cases hk : FSTree.name (.dir m g) = k
          · rw [if_pos hk] at hn; exact absurd (Option.some.inj hn) (by simp)
          · rw [if_neg hk] at hn; exact absurd hn (by simp)
      | cons k2 rest =>
        have hiff := mem_walkForest_iff_lookupPath g hg (k2 :: rest) c
        constructor
        · intro hm
          obtain ⟨⟨p1, c1⟩, he1, hee⟩ := List.mem_map.mp hm
          injection hee with hp1 hc1
          injection hp1 with hmk hp1n
          subst hc1
          subst hp1n
          obtain ⟨n, hn⟩ := hiff.mp he1
          refine ⟨n, ?_⟩
          simp only [lookupInTree]
          rw [if_pos hmk]
          exact hn
        · rintro ⟨n, hn⟩
          simp only [lookupInTree] at hn
          by_cases hk : m = k
          · rw [if_pos hk] at hn
            have hmem := hiff.mpr ⟨n, hn⟩
            exact List.mem_map.mpr ⟨(k2 :: rest, c), hmem, by rw [hk]⟩
          · rw [if_neg hk] at hn; exact absurd hn (by simp)
theorem mem_walkForest_iff_lookupPath : ∀ (f : FSForest), wfForest f = true →
    ∀ (p : FilePath') (c : String),
      ((p, c) ∈ walkForest [] f ↔ ∃ n, lookupPath f p = some (.file n c))
  | .nil, _, p, c => by simp [walkForest, lookupPath]
  | .cons t f', h, p, c => by
    obtain ⟨hname, hwt, hwf'⟩ := (wfForest_cons_iff t f').mp h
    rw [show walkForest [] (.cons t f') = walkTree [] t ++ walkForest [] f' from rfl,
      List.mem_append]
    have htree := mem_walkTree_iff_lookupInTree t hwt p c
    cases hlt : lookupInTree t p with
    | some r =>
      rw [htree]
      constructor
      · rintro (h1 | h2)
        · obtain ⟨n, hn⟩ := h1
          exact ⟨n, by rw [lookupPath_cons_some t f' p r hlt, ← hlt]; exact hn⟩
        · obtain ⟨n0, q0, hp, hmem⟩ := mem_walkForest_head f' p c h2
          obtain ⟨q1, hq1⟩ := lookupInTree_some_head t p r hlt
          rw [hq1] at hp
          injection hp with hh _
          exact absurd (by rw [hh]; exact hmem) hname
      · rintro ⟨n, hn⟩
        rw [lookupPath_cons_some t f' p r hlt] at hn
        exact Or.inl ⟨n, by rw [hlt]; exact hn⟩
    | none =>
      rw [htree, lookupPath_cons_none t f' p hlt]
      have hforest := mem_walkForest_iff_lookupPath f' hwf' p c
      constructor
      · rintro (h1 | h2)
        · obtain ⟨n, hn⟩ := h1
          rw [hlt] at hn
          exact absurd hn (by simp)
        · exact hforest.mp h2
      · intro hr
        exact Or.inr (hforest.mpr hr)
end

mutual
theorem walkTree_paths_nodup : ∀ (t : FSTree), wfTree t = true →
    ((walkTree [] t).map Prod.fst).Nodup
  | .file m s, _ => by simp [walkTree]
  | .dir m g, h => by
    have hg : wfForest g = true := by simpa [wfTree] using h
    have hwalk : walkTree [] (.dir m g) =
        (walkForest [] g).map (fun e => (m :: e.1, e.2)) := by
      rw [walkTree]
      simp only [List.nil_append]
      rw [walkForest_shift [m] g]
      simp
    rw [hwalk, List.map_map]
    have hcomp : (Prod.fst ∘ fun e : FilePath' × String => (m :: e.1, e.2)) =
        (fun q => m :: q) ∘ Prod.fst := rfl
    rw [hcomp, ← List.map_map]
    refine List.Nodup.map ?_ (walkForest_paths_nodup g hg)
    intro a b hab
    injection hab
theorem walkForest_paths_nodup : ∀ (f : FSForest), wfForest f = true →
    ((walkForest [] f).map Prod.fst).Nodup
  | .nil, _ => by simp [walkForest]
  | .cons t f', h => by
    obtain ⟨hname, hwt, hwf'⟩ := (wfForest_cons_iff t f').mp h
    rw [show walkForest [] (.cons t f') = walkTree [] t ++ walkForest [] f' from rfl,
      List.map_append, List.nodup_append]
    refine ⟨walkTree_paths_nodup t hwt, walkForest_paths_nodup f' hwf', ?_⟩
    intro p hp1 hp2
    obtain ⟨⟨p1, c1⟩, he1, hf1⟩ := List.mem_map.mp hp1
    obtain ⟨⟨p2, c2⟩, he2, hf2⟩ := List.mem_map.mp hp2
    simp only at hf1 hf2
    obtain ⟨q1, hq1⟩ := mem_walkTree_head t p1 c1 he1
    obtain ⟨n2, q2, hq2, hn2⟩ := mem_walkForest_head f' p2 c2 he2
    rw [hf1] at hq1
    rw [hf2] at hq2
    rw [hq1] at hq2
    injection hq2 with hh _
    exact hname (by rw [hh]; exact hn2)
end

mutual
theorem walkTree_empty_dir_unreachable : ∀ (t : FSTree), wfTree t = true →
    ∀ (p : FilePath') (dn : String), lookupInTree t p = some (.dir dn .nil) →
    ∀ (pe : FilePath') (c : String), (pe, c) ∈ walkTree [] t →
    ∀ q, pe ≠ p ++ q
  | .file m s, _, p, dn, hl, pe, c, hm, q, heq => by
    cases p with
    | nil => simp [lookupInTree] at hl
    | cons k krest =>
      cases krest with
      | nil =>
        simp only [lookupInTree] at hl
        by_cases hk : FSTree.name (.file m s) = k
        · rw [if_pos hk] at hl; exact absurd (Option.some.inj hl) (by simp)
        · rw [if_neg hk] at hl; exact absurd hl (by simp)
      | cons k2 rest => simp [lookupInTree] at hl
  | .dir m g, h, p, dn, hl, pe, c, hm, q, heq => by
    have hg : wfForest g = true := by simpa [wfTree] using h
    have hwalk : walkTree [] (.dir m g) =
        (walkForest [] g).map (fun e => (m :: e.1, e.2)) := by
      rw [walkTree]
      simp only [List.nil_append]
      rw [walkForest_shift [m] g]
      simp
    rw [hwalk] at hm
    obtain ⟨⟨p1, c1⟩, he1, hf1⟩ := List.mem_map.mp hm
    injection hf1 with hpe hc1
    cases p with
    | nil => simp [lookupInTree] at hl
    | cons k krest =>
      cases krest with
      | nil =>
        simp only [lookupInTree] at hl
        by_cases hk : FSTree.name (.dir m g) = k
        · rw [if_pos hk] at hl
          have h2 := Option.some.inj hl
          injection h2 with hmn hgn
          subst hgn
          simp [walkForest] at he1
        · rw [if_neg hk] at hl; exact absurd hl (by simp)
      | cons k2 rest =>
        simp only [lookupInTree] at hl
        by_cases hk : m = k
        · rw [if_pos hk] at hl
          rw [← hpe] at heq
          rw [List.cons_append] at heq
          injection heq with hmk hp1q
          exact walkForest_empty_dir_unreachable g hg (k2 :: rest) dn hl p1 c1
            he1 q hp1q
        · rw [if_neg hk] at hl; exact absurd hl (by simp)
theorem walkForest_empty_dir_unreachable : ∀ (f : FSForest), wfForest f = true →
    ∀ (p : FilePath') (dn : String), lookupPath f p = some (.dir dn .nil) →
    ∀ (pe : FilePath') (c : String), (pe, c) ∈ walkForest [] f →
    ∀ q, pe ≠ p ++ q
  | .nil, _, p, dn, hl, pe, c, hm, q, heq => by simp [lookupPath] at hl
  | .cons t f', h, p, dn, hl, pe, c, hm, q, heq => by
    obtain ⟨hname, hwt, hwf'⟩ := (wfForest_cons_iff t f').mp h
    rw [show walkForest [] (.cons t f') = walkTree [] t ++ walkForest [] f' from rfl] at hm
    cases hlt : lookupInTree t p with
    | some r =>
      have hr : r = .dir dn .nil := by
        rw [lookupPath_cons_some t f' p r hlt] at hl
        exact Option.some.inj hl
      subst hr
      obtain ⟨q0, hq0⟩ := lookupInTree_some_head t p _ hlt
      rcases List.mem_append.mp hm with h1 | h2
      · exact walkTree_empty_dir_unreachable t hwt p dn hlt pe c h1 q heq
      · obtain ⟨n2, q2, hq2, hn2⟩ := mem_walkForest_head f' pe c h2
        rw [hq0, List.cons_append] at heq
        rw [hq2] at heq
        injection heq with hh _
        exact hname (by rw [← hh]; exact hn2)
    | none =>
      rw [lookupPath_cons_none t f' p hlt] at hl
      obtain ⟨n0, q0, hq0, hn0⟩ := lookupPath_head_mem f' p _ hl
      rcases List.mem_append.mp hm with h1 | h2
      · obtain ⟨q1, hq1⟩ := mem_walkTree_head t pe c h1
        rw [hq0, List.cons_append] at heq
        rw [hq1] at heq
        injection heq with hh _
        exact hname (by rw [hh]; exact hn0)
      · exact walkForest_empty_dir_unreachable f' hwf' p dn hl pe c h2 q heq
end

/-! ## Relativity of archive entries and extraction semantics. -/

theorem zip_folder_rel (folder_abs : FilePath') (f : FSForest) :
    zip_folder folder_abs f = walkForest [] f := by
  rw [zip_folder, walkForest_shift folder_abs f, List.map_map]
  refine Eq.trans (List.map_congr_left ?_) (List.map_id _)
  intro e _
  cases e with
  | mk a b => simp [Function.comp, relpath, List.drop_left]

theorem extractall_cons (fs : FilePath' → Option String) (target : FilePath')
    (e : FilePath' × String) (es : List (FilePath' × String)) :
    extractall fs target (e :: es) =
      extractall (writeFile fs (target ++ e.1) e.2) target es := rfl

theorem extractall_not_mem (target : FilePath') (entries : List (FilePath' × String))
    (fs : FilePath' → Option String) (rel : FilePath')
    (h : rel ∉ entries.map Prod.fst) :
    extractall fs target entries (target ++ rel) = fs (target ++ rel) := by
  apply applyWrites_not_mem
  intro hmem
  rw [List.map_map] at hmem
  obtain ⟨e, he, heq⟩ := List.mem_map.mp hmem
  have heq' : target ++ e.1 = target ++ rel := heq
  have h1 := List.append_cancel_left heq'
  exact h (List.mem_map.mpr ⟨e, he, h1⟩)

theorem extractall_mem (target : FilePath') :
    ∀ (entries : List (FilePath' × String)) (fs : FilePath' → Option String)
      (rel : FilePath') (c : String),
      (entries.map Prod.fst).Nodup → (rel, c) ∈ entries →
      extractall fs target entries (target ++ rel) = some c := by
  intro entries
  induction entries with
  | nil => intro fs rel c _ hmem; simp at hmem
  | cons e es ih =>
    intro fs rel c hnd hmem
    rw [List.map_cons, List.nodup_cons] at hnd
    rw [extractall_cons]
    rcases List.mem_cons.mp hmem with he | hes
    · have hrel : rel = e.1 := congrArg Prod.fst he
      have hc : c = e.2 := congrArg Prod.snd he
      rw [hrel, hc, extractall_not_mem target es _ e.1 hnd.1]
      simp [writeFile]
    · exact ih _ rel c hnd.2 hes

theorem extractall_lookup_iff (target : FilePath')
    (entries : List (FilePath' × String))
    (hnd : (entries.map Prod.fst).Nodup) (rel : FilePath') (c : String) :
    extractall emptyFS target entries (target ++ rel) = some c ↔
      (rel, c) ∈ entries := by
  constructor
  · intro h
    by_cases hin : rel ∈ entries.map Prod.fst
    · obtain ⟨e, he, hrel⟩ := List.mem_map.mp hin
      have := extractall_mem target entries emptyFS rel e.2 hnd
        (by rw [← hrel]; exact he)
      rw [this] at h
      have hc : e.2 = c := by injection h
      have hec : (rel, c) = e := by
        rw [← hrel, ← hc]
      rw [hec]
      exact he
    · rw [extractall_not_mem target entries emptyFS rel hin] at h
      exact absurd h (by simp [emptyFS])
  · exact extractall_mem target entries emptyFS rel c hnd

/-! ## The claims. -/

/-- C1 (counterexample): as stated the claim is false — two discovered
documents at different paths but with the same stem `"x"` make `process_pdfs`
write the same transcript path twice, so the write paths are not distinct and
only 1 file results from 2 pages. -/
theorem C1_counterexample :
    ¬ (((process_pdfs envA rasterOne "p" ["out"] pdfsClash).1.writes.map
        Prod.fst).Nodup) ∧
    ((process_pdfs envA rasterOne "p" ["out"] pdfsClash).1.writes.map
        Prod.fst).dedup.length = 1 ∧
    (process_pdfs envA rasterOne "p" ["out"] pdfsClash).1.writes.length = 2 ∧
    (pdfsClash.map (fun p => (rasterOne p).length)).sum = 2 :=
  ⟨by decide, by decide, by decide, by decide⟩

/-- C1 (amended): provided the discovered Documents have pairwise distinct
chapter names (file stems), `process_pdfs` performs exactly one truncating
write per rasterized page, at the path
`outputDir/chapterName/chapterName_page_{i+1}.txt` (1-based page index); the
write paths are pairwise distinct (each file written exactly once, never
appended), the number of transcript files equals the total page count across
all Documents, and every page — OCR failure or not — gets a transcript
holding whatever text the adapter returned (the placeholder on failure). -/
theorem C1_amended_one_transcript_per_page (env : OcrEnv)
    (rasterize : FilePath' → List PageImage) (prompt : String)
    (output_dir : FilePath') (pdfs : List FilePath')
    (h : (pdfs.map chapter_name).Nodup) :
    (((process_pdfs env rasterize prompt output_dir pdfs).1.writes.map
        Prod.fst).Nodup)
  ∧ ((process_pdfs env rasterize prompt output_dir pdfs).1.writes.length =
      (pdfs.map (fun p => (rasterize p).length)).sum)
  ∧ (∀ pdf ∈ pdfs, ∀ i, i < (rasterize pdf).length →
      (output_dir ++ [chapter_name pdf, txt_name (chapter_name pdf) i],
        (ocr_with_gemini env ((rasterize pdf).getD i []) prompt).1) ∈
        (process_pdfs env rasterize prompt output_dir pdfs).1.writes) := by
  rw [process_pdfs_state]
  refine ⟨process_writes_paths_nodup env rasterize prompt output_dir pdfs h,
    process_writes_length env rasterize prompt output_dir pdfs, ?_⟩
  intro pdf hpdf i hi
  refine List.mem_flatten.mpr
    ⟨docWrites env rasterize prompt output_dir pdf, List.mem_map_of_mem _ hpdf, ?_⟩
  have := pageWritesFrom_mem env prompt (chapter_name pdf)
    (output_dir ++ [chapter_name pdf]) (rasterize pdf) 0 i hi
  simpa [docWrites, List.append_assoc] using this

/-- Witness for the amended C1, at two one-page documents with distinct
stems. -/
theorem C1_amended_witness :
    ((pdfsOk.map chapter_name).Nodup) ∧
    ((((process_pdfs envA rasterOne "p" ["out"] pdfsOk).1.writes.map
        Prod.fst).Nodup)
    ∧ ((process_pdfs envA rasterOne "p" ["out"] pdfsOk).1.writes.length =
        (pdfsOk.map (fun p => (rasterOne p).length)).sum)
    ∧ (∀ pdf ∈ pdfsOk, ∀ i, i < (rasterOne pdf).length →
        (["out"] ++ [chapter_name pdf, txt_name (chapter_name pdf) i],
          (ocr_with_gemini envA ((rasterOne pdf).getD i []) "p").1) ∈
          (process_pdfs envA rasterOne "p" ["out"] pdfsOk).1.writes)) :=
  ⟨by decide,
    C1_amended_one_transcript_per_page envA rasterOne "p" ["out"] pdfsOk (by decide)⟩

/-- C2: the OCR adapter is a total function; when the service response has no
`text` the result is the fixed sentinel `"⚠️ No OCR output"` (and when it has
one, that text); when the response reports no usage value (no
`usage_metadata`, or one without `total_token_count`) the returned usage is 0;
and regardless of what the service answers, the batch still writes one
transcript per page — a bad page never aborts processing. -/
theorem C2_ocr_adapter_sentinel_and_continuation (env : OcrEnv)
    (image : PageImage) (prompt : String) :
    ((env.generate_content (env.encode image) prompt).text = none →
      (ocr_with_gemini env image prompt).1 = "⚠️ No OCR output")
  ∧ (∀ t, (env.generate_content (env.encode image) prompt).text = some t →
      (ocr_with_gemini env image prompt).1 = t)
  ∧ ((env.generate_content (env.encode image) prompt).usage_metadata = none →
      (ocr_with_gemini env image prompt).2 = 0)
  ∧ (∀ u, (env.generate_content (env.encode image) prompt).usage_metadata = some u →
      u.total_token_count = none → (ocr_with_gemini env image prompt).2 = 0)
  ∧ (∀ (rasterize : FilePath' → List PageImage) (output_dir : FilePath')
      (pdfs : List FilePath'),
      (process_pdfs env rasterize prompt output_dir pdfs).1.writes.length =
        (pdfs.map (fun p => (rasterize p).length)).sum) := by
  refine ⟨?_, ?_, ?_, ?_, ?_⟩
  · intro h; simp [ocr_with_gemini, h]
  · intro t h; simp [ocr_with_gemini, h]
  · intro h; simp [ocr_with_gemini, h]
  · intro u h1 h2; simp [ocr_with_gemini, h1, h2]
  · intro rasterize output_dir pdfs
    rw [process_pdfs_state]
    exact process_writes_length env rasterize prompt output_dir pdfs

/-- Witness for C2, at a service response with neither text nor usage. -/
theorem C2_witness :
    ((envNone.generate_content (envNone.encode []) "q").text = none) ∧
    (ocr_with_gemini envNone [] "q").1 = "⚠️ No OCR output" ∧
    (ocr_with_gemini envNone [] "q").2 = 0 :=
  ⟨rfl, (C2_ocr_adapter_sentinel_and_continuation envNone [] "q").1 rfl,
    (C2_ocr_adapter_sentinel_and_continuation envNone [] "q").2.2.1 rfl⟩

/-- C3 (code behavior at the failing input): in the run where the download
button fired (with the Start-OCR block active), `st.rerun()` stops the script
before the cleanup block, so the trigger is set but nothing is deleted; and on
the next render pass — where no button was clicked, since a Streamlit button
reads `True` only in the run its click caused — the whole Start-OCR block is
skipped, so the cleanup block (nested inside it) never executes: no deletion
happens, `cleanup_trigger` stays `true`, and the Job is wedged in Pending,
contradicting the claim that cleanup executes exactly once and the state
returns to Idle. -/
theorem C3_cleanup_never_runs_on_rerender :
    (render_script ⟨true, true, true⟩ ⟨false⟩).state = ⟨true⟩ ∧
    (render_script ⟨true, true, true⟩ ⟨false⟩).rerunRequested = true ∧
    RenderEffect.cleanupDeletions ∉ (render_script ⟨true, true, true⟩ ⟨false⟩).effects ∧
    (render_script ⟨true, false, false⟩ ⟨true⟩).state = ⟨true⟩ ∧
    RenderEffect.cleanupDeletions ∉ (render_script ⟨true, false, false⟩ ⟨true⟩).effects ∧
    (render_script ⟨true, false, false⟩ ⟨true⟩).effects =
      [RenderEffect.uploadClear, .uploadSave, .uploadExtract] :=
  ⟨rfl, rfl, by decide, rfl, by decide, rfl⟩

/-- C4: with zero discovered PDFs the progress list is empty (no fraction is
ever computed, hence no division by zero) and the returned StructureReport is
the empty string; with at least one PDF, exactly one fraction is reported per
document and the last reported fraction is exactly 1. -/
theorem C4_progress_guard_and_final_fraction (env : OcrEnv)
    (rasterize : FilePath' → List PageImage) (prompt : String)
    (output_dir : FilePath') (pdfs : List FilePath') :
    (pdfs = [] →
      (process_pdfs env rasterize prompt output_dir pdfs).1.progress = [] ∧
      (process_pdfs env rasterize prompt output_dir pdfs).1.structure_output = [] ∧
      (process_pdfs env rasterize prompt output_dir pdfs).2 = "")
  ∧ (pdfs ≠ [] →
      (process_pdfs env rasterize prompt output_dir pdfs).1.progress.length =
        pdfs.length ∧
      (process_pdfs env rasterize prompt output_dir pdfs).1.progress.getLast? =
        some 1) := by
  constructor
  · rintro rfl
    refine ⟨?_, ?_, ?_⟩
    · rw [process_pdfs_state]; rfl
    · rw [process_pdfs_state]; rfl
    · rfl
  · intro hne
    rw [process_pdfs_state]
    refine ⟨progressFrom_length _ _ _, ?_⟩
    exact progressFrom_getLast pdfs.length pdfs.length 0
      (fun h0 => hne (List.length_eq_zero.mp h0)) (by omega)

/-- Witness for C4, at a single one-page document. -/
theorem C4_witness :
    ([["a", "x.pdf"]] ≠ ([] : List FilePath')) ∧
    ((process_pdfs envA rasterOne "p" ["out"] [["a", "x.pdf"]]).1.progress.length =
      [["a", "x.pdf"]].length ∧
    (process_pdfs envA rasterOne "p" ["out"] [["a", "x.pdf"]]).1.progress.getLast? =
      some 1) :=
  ⟨by decide,
    (C4_progress_guard_and_final_fraction envA rasterOne "p" ["out"]
      [["a", "x.pdf"]]).2 (by decide)⟩

/-- C5: the entries `zip_folder` produces are the walked files under paths
relative to the source directory — the same entry list no matter which
absolute path the source directory has — and extracting that archive into a
fresh directory reproduces exactly the source's relative file set,
byte-for-byte: a path under the target holds content `c` iff the source tree
holds a file with that relative path and content `c`. -/
theorem C5_compress_extract_roundtrip (f : FSForest)
    (folder_abs other_abs target : FilePath') (hwf : wfForest f = true) :
    zip_folder folder_abs f = walkForest [] f
  ∧ zip_folder folder_abs f = zip_folder other_abs f
  ∧ (∀ rel c,
      extractall emptyFS target (zip_folder folder_abs f) (target ++ rel) = some c
        ↔ ∃ n, lookupPath f rel = some (.file n c)) := by
  refine ⟨zip_folder_rel folder_abs f,
    by rw [zip_folder_rel, zip_folder_rel], ?_⟩
  intro rel c
  rw [zip_folder_rel]
  rw [extractall_lookup_iff target _ (walkForest_paths_nodup f hwf) rel c]
  exact mem_walkForest_iff_lookupPath f hwf rel c

/-- Witness for C5, at a two-file tree with a subdirectory. -/
theorem C5_witness :
    wfForest forestA = true ∧
    (zip_folder ["home", "res"] forestA = walkForest [] forestA
  ∧ zip_folder ["home", "res"] forestA = zip_folder ["elsewhere"] forestA
  ∧ (∀ rel c,
      extractall emptyFS ["tgt"] (zip_folder ["home", "res"] forestA)
          (["tgt"] ++ rel) = some c
        ↔ ∃ n, lookupPath forestA rel = some (.file n c))) :=
  ⟨by decide,
    C5_compress_extract_roundtrip forestA ["home", "res"] ["elsewhere"] ["tgt"]
      (by decide)⟩

/-- C6: the returned StructureReport is the newline-join of the accumulated
line list; that list is, in discovery order, one folder line per document
followed by one file line per page of that document; and its length is the
number of documents plus the total page count. -/
theorem C6_structure_report_line_count (env : OcrEnv)
    (rasterize : FilePath' → List PageImage) (prompt : String)
    (output_dir : FilePath') (pdfs : List FilePath') :
    (process_pdfs env rasterize prompt output_dir pdfs).2 =
      String.intercalate "\n"
        (process_pdfs env rasterize prompt output_dir pdfs).1.structure_output
  ∧ (process_pdfs env rasterize prompt output_dir pdfs).1.structure_output =
      (pdfs.map (docLines rasterize)).flatten
  ∧ (process_pdfs env rasterize prompt output_dir pdfs).1.structure_output.length =
      pdfs.length + (pdfs.map (fun p => (rasterize p).length)).sum := by
  refine ⟨rfl, by rw [process_pdfs_state], ?_⟩
  rw [process_pdfs_state]
  show ((pdfs.map (docLines rasterize)).flatten).length = _
  rw [List.length_flatten, List.map_map]
  rw [List.map_congr_left (fun p _ => by
    show (List.length ∘ docLines rasterize) p = 1 + (rasterize p).length
    exact docLines_length rasterize p)]
  exact sum_map_one_add pdfs (fun p => (rasterize p).length)

/-- C7: re-uploading over any previous Job footprint (the extract path and
the result path can be absent or directories, never regular files in any
state the app creates) leaves, after the upload handler and the Start-OCR
setup, no stale data in any of the three derived paths: the extract
directory is destroyed and recreated holding exactly the new archive's
entries, the staged archive file holds exactly the new upload's bytes, and
the result directory is reset to empty. -/
theorem C7_reupload_clears_all_three_paths (fs : AppFS)
    (uploaded_bytes : List Nat)
    (entries_of : List Nat → List (FilePath' × String))
    (hx : ∀ b, fs.extract ≠ .file b) (hr : ∀ b, fs.result ≠ .file b) :
    ∃ fs', upload_handler fs uploaded_bytes entries_of = some fs'
      ∧ fs'.extract = .dir ((entries_of uploaded_bytes).foldl dirWrite [])
      ∧ fs'.zipPath = .file uploaded_bytes
      ∧ fs'.result = fs.result
      ∧ start_ocr_setup fs' = some { fs' with result := .dir [] } := by
  cases fs with
  | mk ex zp res =>
    cases ex with
    | file b => exact absurd rfl (hx b)
    | absent =>
      cases res with
      | file b => exact absurd rfl (hr b)
      | absent => exact ⟨_, rfl, rfl, rfl, rfl, rfl⟩
      | dir res_es => exact ⟨_, rfl, rfl, rfl, rfl, rfl⟩
    | dir es =>
      cases res with
      | file b => exact absurd rfl (hr b)
      | absent => exact ⟨_, rfl, rfl, rfl, rfl, rfl⟩
      | dir res_es => exact ⟨_, rfl, rfl, rfl, rfl, rfl⟩

/-- Witness for C7, at a stale footprint from a previous Job with the same
upload name. -/
theorem C7_witness :
    (∀ b, staleAppFS.extract ≠ .file b) ∧ (∀ b, staleAppFS.result ≠ .file b) ∧
    (∃ fs', upload_handler staleAppFS [1, 2] entriesOfA = some fs'
      ∧ fs'.extract = .dir ((entriesOfA [1, 2]).foldl dirWrite [])
      ∧ fs'.zipPath = .file [1, 2]
      ∧ fs'.result = staleAppFS.result
      ∧ start_ocr_setup fs' = some { fs' with result := .dir [] }) :=
  ⟨fun b h => by simp [staleAppFS] at h,
   fun b h => by simp [staleAppFS] at h,
   C7_reupload_clears_all_three_paths staleAppFS [1, 2] entriesOfA
     (fun b h => by simp [staleAppFS] at h)
     (fun b h => by simp [staleAppFS] at h)⟩

/-- C8 (code behavior at the failing input): with `GEMINI_API_KEY` absent
from the environment, `os.getenv` yields `None` without raising and the
module import completes normally — the app starts and renders its UI with no
stored credential instead of failing fast; the missing key can only surface
later, at the first OCR call. -/
theorem C8_startup_does_not_fail_fast :
    os_getenv [] "GEMINI_API_KEY" = none ∧
    app_startup [] = .started none ∧
    app_startup [] ≠ .fatalError :=
  ⟨rfl, rfl, by decide⟩

/-- C9: two discovered documents at different paths whose stems are equal
share the same chapter output directory, and their equal page indices target
the same transcript path; the earlier document's page-`i` transcript is
written into the batch, and after all writes the file at that path holds the
later document's page-`i` text — the later write overwrote the earlier one. -/
theorem C9_stem_collision_overwrite (env : OcrEnv)
    (rasterize : FilePath' → List PageImage) (prompt : String)
    (output_dir : FilePath') (l1 l2 : List FilePath') (d1 d2 : FilePath')
    (i : Nat) (hpath : d1 ≠ d2) (hstem : chapter_name d1 = chapter_name d2)
    (h1 : i < (rasterize d1).length) (h2 : i < (rasterize d2).length)
    (fs0 : FilePath' → Option String) :
    (output_dir ++ [chapter_name d1] = output_dir ++ [chapter_name d2])
  ∧ ((output_dir ++ [chapter_name d1, txt_name (chapter_name d1) i],
      (ocr_with_gemini env ((rasterize d1).getD i []) prompt).1) ∈
      (process_pdfs env rasterize prompt output_dir (l1 ++ d1 :: l2 ++ [d2])).1.writes)
  ∧ (applyWrites fs0
      (process_pdfs env rasterize prompt output_dir (l1 ++ d1 :: l2 ++ [d2])).1.writes
      (output_dir ++ [chapter_name d1, txt_name (chapter_name d1) i]) =
      some ((ocr_with_gemini env ((rasterize d2).getD i []) prompt).1)) := by
  refine ⟨by rw [hstem], ?_, ?_⟩
  · rw [process_pdfs_state]
    refine List.mem_flatten.mpr
      ⟨docWrites env rasterize prompt output_dir d1,
        List.mem_map_of_mem _ (by simp), ?_⟩
    have := pageWritesFrom_mem env prompt (chapter_name d1)
      (output_dir ++ [chapter_name d1]) (rasterize d1) 0 i h1
    simpa [docWrites, List.append_assoc] using this
  · rw [hstem]
    rw [show l1 ++ d1 :: l2 ++ [d2] = (l1 ++ d1 :: l2) ++ [d2] by simp]
    exact process_last_doc_write env rasterize prompt output_dir
      (l1 ++ d1 :: l2) d2 i h2 fs0

/-- Witness for C9, at the two one-page documents `a/x.pdf` and `b/x.pdf`. -/
theorem C9_witness :
    ((["a", "x.pdf"] : FilePath') ≠ ["b", "x.pdf"]) ∧
    chapter_name ["a", "x.pdf"] = chapter_name ["b", "x.pdf"] ∧
    ((["out"] ++ [chapter_name ["a", "x.pdf"]] =
        ["out"] ++ [chapter_name ["b", "x.pdf"]])
  ∧ ((["out"] ++ [chapter_name ["a", "x.pdf"],
        txt_name (chapter_name ["a", "x.pdf"]) 0],
      (ocr_with_gemini envA ((rasterOne ["a", "x.pdf"]).getD 0 []) "p").1) ∈
      (process_pdfs envA rasterOne "p" ["out"]
        ([] ++ ["a", "x.pdf"] :: [] ++ [["b", "x.pdf"]])).1.writes)
  ∧ (applyWrites emptyFS
      (process_pdfs envA rasterOne "p" ["out"]
        ([] ++ ["a", "x.pdf"] :: [] ++ [["b", "x.pdf"]])).1.writes
      (["out"] ++ [chapter_name ["a", "x.pdf"],
        txt_name (chapter_name ["a", "x.pdf"]) 0]) =
      some ((ocr_with_gemini envA ((rasterOne ["b", "x.pdf"]).getD 0 []) "p").1))) :=
  ⟨by decide, by decide,
    C9_stem_collision_overwrite envA rasterOne "p" ["out"] [] []
      ["a", "x.pdf"] ["b", "x.pdf"] 0 (by decide) (by decide) (by decide)
      (by decide) emptyFS⟩

/-- C10: every entry of the archive produced by `zip_folder` corresponds to a
regular file of the source tree (directories are never added as entries); in
particular, for an empty subdirectory of the source tree, no entry path
equals it or lies under it, so it does not appear in the archive at all. -/
theorem C10_archive_holds_only_files (f : FSForest) (folder_abs : FilePath')
    (hwf : wfForest f = true) :
    (∀ e ∈ zip_folder folder_abs f, ∃ n, lookupPath f e.1 = some (.file n e.2))
  ∧ (∀ p dn, lookupPath f p = some (.dir dn .nil) →
      ∀ e ∈ zip_folder folder_abs f, ∀ q, e.1 ≠ p ++ q) := by
  constructor
  · intro e he
    rw [zip_folder_rel] at he
    have hmem : (e.1, e.2) ∈ walkForest [] f := by
      rw [Prod.mk.eta]; exact he
    exact (mem_walkForest_iff_lookupPath f hwf e.1 e.2).mp hmem
  · intro p dn hl e he q
    rw [zip_folder_rel] at he
    exact walkForest_empty_dir_unreachable f hwf p dn hl e.1 e.2
      (by rw [Prod.mk.eta]; exact he) q

/-- Witness for C10, at a tree holding an empty subdirectory beside one
file. -/
theorem C10_witness :
    wfForest forestEmptyDir = true ∧
    ((∀ e ∈ zip_folder ["res"] forestEmptyDir,
        ∃ n, lookupPath forestEmptyDir e.1 = some (.file n e.2))
  ∧ (∀ p dn, lookupPath forestEmptyDir p = some (.dir dn .nil) →
      ∀ e ∈ zip_folder ["res"] forestEmptyDir, ∀ q, e.1 ≠ p ++ q)) :=
  ⟨by decide, C10_archive_holds_only_files forestEmptyDir ["res"] (by decide)⟩
